import Mathlib

/-!
Verification of the go-epub resource/section registry (src/epub.go).

The definitions below are a shallow embedding of the Go source. Go maps
are embedded as association lists whose keys are kept unique by the very
duplicate check the source performs before every insert; the list order
additionally records insertion order, which the spec's builders (package
document, tables of contents — code not present under src/) consume.
Definitions whose doc comment starts with "Modelled from the spec:" embed
repository code that is not part of src/ and follow the spec's words.
-/

/- ### Decimal formatting: the semantics of fmt.Sprintf "%04d" -/

/-- The character for a single decimal digit (0-9). -/
def digitChar (d : Nat) : Char :=
  if d = 0 then '0' else if d = 1 then '1' else if d = 2 then '2'
  else if d = 3 then '3' else if d = 4 then '4' else if d = 5 then '5'
  else if d = 6 then '6' else if d = 7 then '7' else if d = 8 then '8' else '9'

/-- Decimal digits of n, least significant first, empty for 0.
The first argument is fuel; `digitsRev` supplies enough. -/
def digitsRevAux : Nat → Nat → List Char
  | 0, _ => []
  | fuel + 1, n => if n = 0 then [] else digitChar (n % 10) :: digitsRevAux fuel (n / 10)

/-- Decimal digits of n, least significant first, empty for 0. -/
def digitsRev (n : Nat) : List Char := digitsRevAux n n

/-- Decimal representation of n, most significant digit first ("%d"). -/
def digitsL (n : Nat) : List Char := if n = 0 then ['0'] else (digitsRev n).reverse

/-- Decimal representation of n padded with leading zeros to width at
least 4: the semantics of the "%04d" format verb. -/
def pad4L (n : Nat) : List Char :=
  List.replicate (4 - (digitsL n).length) '0' ++ digitsL n

/-- Numeric value of a digit character. -/
def charVal (c : Char) : Nat := c.toNat - 48

/-- Value of a digit list, least significant first. -/
def valRev : List Char → Nat
  | [] => 0
  | c :: cs => charVal c + 10 * valRev cs

/-- Value of a digit list, most significant first. -/
def valM (l : List Char) : Nat := valRev l.reverse

/- ### path/filepath: Ext, Clean (relative paths) and Join -/

/-- Helper for `extF`: scan the reversed path, accumulating characters
until the last dot of the final path element is found; a path separator
or the start of the string ends the scan without an extension. -/
def extAux : List Char → List Char → Option (List Char)
  | [], _ => none
  | c :: rest, acc =>
    if c = '/' then none
    else if c = '.' then some ('.' :: acc)
    else extAux rest (c :: acc)

/-- The semantics of path/filepath.Ext: the suffix beginning at the final
dot in the final slash-separated element of the path, empty if none. -/
def extF (path : String) : String :=
  match extAux path.data.reverse [] with
  | none => ""
  | some l => String.mk l

/-- Split a character list on the path separator. -/
def splitSlash : List Char → List (List Char)
  | [] => [[]]
  | c :: cs =>
    if c = '/' then [] :: splitSlash cs
    else
      match splitSlash cs with
      | [] => [[c]]
      | h :: t => (c :: h) :: t

/-- One step of path cleaning: push an element on the (reversed) stack of
kept elements, resolving ".." against it as filepath.Clean does for
non-rooted paths. -/
def cleanStep (acc : List (List Char)) (e : List Char) : List (List Char) :=
  if e = ['.', '.'] then
    match acc with
    | [] => [['.', '.']]
    | h :: t => if h = ['.', '.'] then e :: acc else t
  else e :: acc

/-- Join cleaned elements back with the separator. -/
def joinSlash : List (List Char) → List Char
  | [] => []
  | [e] => e
  | e :: rest => e ++ '/' :: joinSlash rest

/-- The semantics of path/filepath.Clean on non-rooted paths (the only
paths this package joins): drop empty and "." elements, resolve ".."
against preceding elements, and return "." for an empty result. -/
def cleanRelL (l : List Char) : List Char :=
  let elems := (splitSlash l).filter (fun e => decide (e ≠ [] ∧ e ≠ ['.']))
  match (elems.foldl cleanStep []).reverse with
  | [] => ['.']
  | r => joinSlash r

/-- path/filepath.Clean for non-rooted paths, on strings. -/
def cleanRel (p : String) : String := String.mk (cleanRelL p.data)

/-- Join strings with the path separator (the semantics of
strings.Join with separator "/"). -/
def joinRaw : List String → String
  | [] => ""
  | [s] => s
  | s :: rest => s ++ "/" ++ joinRaw rest

/-- The semantics of path/filepath.Join: join the elements from the first
non-empty one with the separator, then clean the result. -/
def goJoin (parts : List String) : String :=
  match parts.dropWhile (fun s => s = "") with
  | [] => ""
  | ps => cleanRel (joinRaw ps)

/- ### Constants of src/epub.go -/

/-- Constant defaultEpubLang of src/epub.go. -/
def defaultEpubLang : String := "en"

/-- Constant urnUUIDPrefix of src/epub.go ("urn:uuid:"). -/
def urnUUIDPre : String := "urn:uuid:"

/-- Modelled from the spec: the fixed folder name for images referenced by
AddImage (src/epub.go line 109); its defining file is not under src/, the
value "img" follows the spec's output layout `OEBPS/img/` and the
documented return `../img/...`. -/
def imageFolderName : String := "img"

/-- Modelled from the spec: the fixed folder name for stylesheets, from
the spec's output layout `OEBPS/css/` and the documented return
`../css/...`. -/
def cssFolderName : String := "css"

/-- fmt.Sprintf(imageFileFormat, n, ext) with imageFileFormat =
"image%04d%s" (src/epub.go line 53). -/
def genImageName (n : Nat) (ext : String) : String :=
  "image" ++ String.mk (pad4L n) ++ ext

/-- fmt.Sprintf(sectionFileFormat, n) with sectionFileFormat =
"section%04d.xhtml" (src/epub.go line 54). -/
def genSectionName (n : Nat) : String :=
  "section" ++ String.mk (pad4L n) ++ ".xhtml"

/-- Modelled from the spec: the generated stylesheet filename
`css<4-digit sequence>.css` (spec example: css0002.css). -/
def genCSSName (n : Nat) : String :=
  "css" ++ String.mk (pad4L n) ++ ".css"

/- ### The data model -/

/-- The error sentinel ErrFilenameAlreadyUsed of src/epub.go. -/
inductive EpubError
  | filenameAlreadyUsed
deriving DecidableEq

instance : DecidableEq (Except EpubError String) := fun a b =>
  match a, b with
  | Except.ok x, Except.ok y =>
    if h : x = y then isTrue (by rw [h]) else isFalse (by intro hc; cases hc; exact h rfl)
  | Except.error x, Except.error y =>
    if h : x = y then isTrue (by rw [h]) else isFalse (by intro hc; cases hc; exact h rfl)
  | Except.ok _, Except.error _ => isFalse (by intro hc; cases hc)
  | Except.error _, Except.ok _ => isFalse (by intro hc; cases hc)

/-- Modelled from the spec: the xhtml document shell (type xhtml, file not
under src/): it carries the body content fragment and the display title
set via newXhtml(content) and x.setTitle(title). -/
structure Xhtml where
  content : String
  title : String
deriving DecidableEq

/-- Modelled from the spec: the package-document metadata (type pkg, file
not under src/) reachable from src/epub.go via setAuthor / setLang /
setTitle / setUUID. -/
structure Pkg where
  author : String
  lang : String
  title : String
  uuid : String
deriving DecidableEq

/-- Modelled from the spec: the toc metadata (type toc, file not under
src/) reachable from src/epub.go via setTitle / setUUID. -/
structure Toc where
  title : String
  uuid : String
deriving DecidableEq

/-- The Epub struct of src/epub.go. Go maps become association lists with
unique keys; the list order records insertion order, which the spec's
builders consume. The css field is modelled from the spec (the stylesheet
registry of the spec's ResourceRegistry; not declared in src/epub.go). -/
structure Epub where
  author : String
  images : List (String × String)
  css : List (String × String)
  lang : String
  pkg : Pkg
  sections : List (String × Xhtml)
  title : String
  toc : Toc
  uuid : String
deriving DecidableEq

/-- Modelled from the spec: newPackage() — empty metadata skeleton. -/
def newPackage : Pkg := ⟨"", "", "", ""⟩

/-- Modelled from the spec: newToc() — empty metadata skeleton. -/
def newToc : Toc := ⟨"", ""⟩

/-- Modelled from the spec: pkg.setAuthor. -/
def Pkg.setAuthor (p : Pkg) (a : String) : Pkg := { p with author := a }

/-- Modelled from the spec: pkg.setLang. -/
def Pkg.setLang (p : Pkg) (l : String) : Pkg := { p with lang := l }

/-- Modelled from the spec: pkg.setTitle. -/
def Pkg.setTitle (p : Pkg) (t : String) : Pkg := { p with title := t }

/-- Modelled from the spec: pkg.setUUID. -/
def Pkg.setUUID (p : Pkg) (u : String) : Pkg := { p with uuid := u }

/-- Modelled from the spec: toc.setTitle. -/
def Toc.setTitle (t : Toc) (v : String) : Toc := { t with title := v }

/-- Modelled from the spec: toc.setUUID. -/
def Toc.setUUID (t : Toc) (u : String) : Toc := { t with uuid := u }

/-- SetAuthor of src/epub.go: sets the field and pkg.setAuthor. -/
def Epub.SetAuthor (e : Epub) (author : String) : Epub :=
  { e with author := author, pkg := e.pkg.setAuthor author }

/-- SetLang of src/epub.go: sets the field and pkg.setLang. -/
def Epub.SetLang (e : Epub) (lang : String) : Epub :=
  { e with lang := lang, pkg := e.pkg.setLang lang }

/-- SetTitle of src/epub.go: sets the field, pkg.setTitle and
toc.setTitle. -/
def Epub.SetTitle (e : Epub) (title : String) : Epub :=
  { e with title := title, pkg := e.pkg.setTitle title, toc := e.toc.setTitle title }

/-- SetUUID of src/epub.go: sets the field and passes the URN-prefixed
value to pkg.setUUID and toc.setUUID. -/
def Epub.SetUUID (e : Epub) (uuid : String) : Epub :=
  { e with uuid := uuid, pkg := e.pkg.setUUID (urnUUIDPre ++ uuid), toc := e.toc.setUUID (urnUUIDPre ++ uuid) }

/-- NewEpub of src/epub.go. The externally generated V4 UUID
(uuid.NewV4().String()) is passed in as the genUUID argument. -/
def NewEpub (title : String) (genUUID : String) : Epub :=
  let e : Epub := ⟨"", [], [], "", newPackage, [], "", newToc, ""⟩
  ((e.SetLang defaultEpubLang).SetTitle title).SetUUID genUUID

/-- The filename AddImage resolves: the given one, or the generated
`image%04d%s` name using the current image count + 1 and the extension of
the source (src/epub.go lines 96-99). -/
def Epub.resolvedImageName (e : Epub) (imageSource imageFilename : String) : String :=
  if imageFilename = "" then genImageName (e.images.length + 1) (extF imageSource)
  else imageFilename

/-- AddImage of src/epub.go: resolve the filename, fail on a duplicate
key leaving the state untouched, otherwise store the source under the
filename and return filepath.Join("..", imageFolderName, filename). -/
def Epub.AddImage (e : Epub) (imageSource imageFilename : String) :
    Epub × Except EpubError String :=
  let fn := e.resolvedImageName imageSource imageFilename
  if fn ∈ e.images.map Prod.fst then
    (e, Except.error EpubError.filenameAlreadyUsed)
  else
    ({ e with images := e.images ++ [(fn, imageSource)] },
     Except.ok (goJoin ["..", imageFolderName, fn]))

/-- The filename AddSection resolves: the given one, or the generated
`section%04d.xhtml` name using the current section count + 1
(src/epub.go lines 131-134). -/
def Epub.resolvedSectionName (e : Epub) (sectionFilename : String) : String :=
  if sectionFilename = "" then genSectionName (e.sections.length + 1)
  else sectionFilename

/-- AddSection of src/epub.go: resolve the filename, fail on a duplicate
key leaving the state untouched, otherwise store the xhtml shell (built
by newXhtml(content) then setTitle(title)) and return the bare
filename. -/
def Epub.AddSection (e : Epub) (sectionTitle sectionContent sectionFilename : String) :
    Epub × Except EpubError String :=
  let fn := e.resolvedSectionName sectionFilename
  if fn ∈ e.sections.map Prod.fst then
    (e, Except.error EpubError.filenameAlreadyUsed)
  else
    ({ e with sections := e.sections ++ [(fn, ⟨sectionContent, sectionTitle⟩)] },
     Except.ok fn)

/-- Modelled from the spec: the resolved stylesheet filename of the
AddCSS operation (code not under src/), generated as
`css<4-digit sequence>.css` from the current stylesheet count + 1. -/
def Epub.resolvedCSSName (e : Epub) (cssFilename : String) : String :=
  if cssFilename = "" then genCSSName (e.css.length + 1)
  else cssFilename

/-- Modelled from the spec: AddCSS (code not under src/): resolve the
filename, fail with the duplicate sentinel on a name already in the
stylesheet namespace leaving the state untouched, otherwise store the
content and return `../css/<filename>`. -/
def Epub.AddCSS (e : Epub) (content cssFilename : String) :
    Epub × Except EpubError String :=
  let fn := e.resolvedCSSName cssFilename
  if fn ∈ e.css.map Prod.fst then
    (e, Except.error EpubError.filenameAlreadyUsed)
  else
    ({ e with css := e.css ++ [(fn, content)] },
     Except.ok (goJoin ["..", cssFolderName, fn]))

/- ### Modelled from the spec: spine and table-of-contents builders -/

/-- Modelled from the spec: the spine built at write time (code not under
src/) — the ordered list of section references, one per section, in
insertion order. -/
def spineOf (e : Epub) : List String := e.sections.map Prod.fst

/-- Number the sections sequentially from k, producing legacy toc entries
(play order, title, href). -/
def numberFrom (k : Nat) : List (String × Xhtml) → List (Nat × String × String)
  | [] => []
  | p :: rest => (k, p.2.title, p.1) :: numberFrom (k + 1) rest

/-- Modelled from the spec: the legacy play-ordered navigation map built
from the section store in insertion order, entries numbered from 1. -/
def legacyTocOf (e : Epub) : List (Nat × String × String) := numberFrom 1 e.sections

/-- Modelled from the spec: the modern navigation document — the ordered
list of (title, href) links built from the same section snapshot. -/
def navDocOf (e : Epub) : List (String × String) :=
  e.sections.map (fun p => (p.2.title, p.1))

/- ### Modelled from the spec: the container serializer (write) -/

/-- An entry of the produced archive: name, whether it is deflated
(compressed) rather than stored, and its byte content. -/
structure ZipEntry where
  name : String
  deflated : Bool
  content : String
deriving DecidableEq

/-- Modelled from the spec: the fixed container media-type string stored
in the first archive entry. -/
def containerMediaType : String := "application/epub+zip"

/-- Modelled from the spec: the static container descriptor pointing at
the package document location. -/
def containerXml : String :=
  "<container><rootfile full-path=\x22OEBPS/package.opf\x22/></container>"

/-- Modelled from the spec: the minimal document shell a section is
serialized as, carrying the title and the body content fragment. -/
def renderXhtml (x : Xhtml) : String :=
  "<html><head><title>" ++ x.title ++ "</title></head><body>" ++ x.content ++ "</body></html>"

/-- Modelled from the spec: the package document, carrying the metadata
mirror, the manifest and the spine in section insertion order. -/
def renderPackage (e : Epub) : String :=
  "<package uid=" ++ e.pkg.uuid ++ " title=" ++ e.pkg.title ++ " author=" ++ e.pkg.author
    ++ " lang=" ++ e.pkg.lang ++ " spine=" ++ String.intercalate "," (spineOf e) ++ "/>"

/-- Modelled from the spec: the legacy navigation document. -/
def renderLegacyToc (e : Epub) : String :=
  "<ncx uid=" ++ e.toc.uuid ++ " title=" ++ e.toc.title ++ " nav="
    ++ String.intercalate "," ((legacyTocOf e).map (fun p => p.2.2)) ++ "/>"

/-- Modelled from the spec: the modern navigation document. -/
def renderNav (e : Epub) : String :=
  "<nav>" ++ String.intercalate "," ((navDocOf e).map Prod.snd) ++ "</nav>"

/-- Resolve the bytes of every registered resource through the external
fetch collaborator; any failed fetch aborts the whole resolution. -/
def fetchAll (fetch : String → Option String) : List (String × String) → Option (List (String × String))
  | [] => some []
  | (fn, src) :: rest =>
    match fetch src with
    | none => none
    | some bytes =>
      match fetchAll fetch rest with
      | none => none
      | some r => some ((fn, bytes) :: r)

/-- Modelled from the spec: the write operation (code not under src/).
It resolves every image's bytes through the fetch collaborator (a failure
aborts with no output) and serializes the fixed file tree: the first
entry is the uncompressed media-type declaration, followed by the
container descriptor, the package document, both toc documents, and the
content files under their fixed folders. -/
def Epub.write (e : Epub) (fetch : String → Option String) : Option (List ZipEntry) :=
  match fetchAll fetch e.images with
  | none => none
  | some imgBytes =>
    some (⟨"mimetype", false, containerMediaType⟩ ::
      ⟨"META-INF/container.xml", true, containerXml⟩ ::
      ⟨"OEBPS/package.opf", true, renderPackage e⟩ ::
      ⟨"OEBPS/toc.ncx", true, renderLegacyToc e⟩ ::
      ⟨"OEBPS/nav.xhtml", true, renderNav e⟩ ::
      (imgBytes.map (fun p => ⟨"OEBPS/" ++ imageFolderName ++ "/" ++ p.1, true, p.2⟩) ++
       e.css.map (fun p => ⟨"OEBPS/" ++ cssFolderName ++ "/" ++ p.1, true, p.2⟩) ++
       e.sections.map (fun p => ⟨"OEBPS/" ++ p.1, true, renderXhtml p.2⟩)))

/- ### Operation sequences over a Book -/

/-- A public mutating operation on a Book. -/
inductive Op
  | setAuthor (v : String)
  | setLang (v : String)
  | setTitle (v : String)
  | setUUID (v : String)
  | addImage (src fn : String)
  | addSection (title content fn : String)
  | addCSS (content fn : String)
deriving DecidableEq

/-- Apply one operation to an Epub (the returned value of the add
operations is dropped; their state effect is kept). -/
def applyOp (o : Op) (e : Epub) : Epub :=
  match o with
  | Op.setAuthor v => e.SetAuthor v
  | Op.setLang v => e.SetLang v
  | Op.setTitle v => e.SetTitle v
  | Op.setUUID v => e.SetUUID v
  | Op.addImage src fn => (e.AddImage src fn).1
  | Op.addSection t c fn => (e.AddSection t c fn).1
  | Op.addCSS c fn => (e.AddCSS c fn).1

/-- Apply a sequence of operations, first-to-last. -/
def applyOps : List Op → Epub → Epub
  | [], e => e
  | o :: os, e => applyOps os (applyOp o e)

/-- Whether an operation is a SetAuthor call. -/
def Op.isSetAuthor : Op → Bool
  | Op.setAuthor _ => true
  | _ => false

/-- Whether an operation is a SetLang call. -/
def Op.isSetLang : Op → Bool
  | Op.setLang _ => true
  | _ => false

/-- Whether an operation is a SetTitle call. -/
def Op.isSetTitle : Op → Bool
  | Op.setTitle _ => true
  | _ => false

/-- Whether an operation is a SetUUID call. -/
def Op.isSetUUID : Op → Bool
  | Op.setUUID _ => true
  | _ => false

/-- The filenames of the successful AddSection calls of an operation
sequence, in call order. -/
def sectionTrace : List Op → Epub → List String
  | [], _ => []
  | o :: os, e =>
    (match o with
     | Op.addSection t c fn =>
       match (e.AddSection t c fn).2 with
       | Except.ok n => [n]
       | Except.error _ => []
     | _ => []) ++ sectionTrace os (applyOp o e)

/- ### Sequences of add calls with generated filenames -/

/-- A resource-add call that passes an empty filename. -/
inductive ResCall
  | img (src : String)
  | css (content : String)
deriving DecidableEq

/-- Run a sequence of empty-filename add calls, collecting the returned
values. -/
def runRes : Epub → List ResCall → Epub × List (Except EpubError String)
  | e, [] => (e, [])
  | e, ResCall.img src :: rest =>
    let r := e.AddImage src ""
    let t := runRes r.1 rest
    (t.1, r.2 :: t.2)
  | e, ResCall.css content :: rest =>
    let r := e.AddCSS content ""
    let t := runRes r.1 rest
    (t.1, r.2 :: t.2)

/-- The image sources of a call sequence, in order. -/
def imgSrcs : List ResCall → List String
  | [] => []
  | ResCall.img s :: rest => s :: imgSrcs rest
  | ResCall.css _ :: rest => imgSrcs rest

/-- The stylesheet contents of a call sequence, in order. -/
def cssContents : List ResCall → List String
  | [] => []
  | ResCall.img _ :: rest => cssContents rest
  | ResCall.css c :: rest => c :: cssContents rest

/-- The image registry contents produced by empty-filename adds of the
given sources when off images were already present: generated names use
the strictly increasing sequence numbers off+1, off+2, ... -/
def expectedImagesFrom (off : Nat) : List String → List (String × String)
  | [] => []
  | s :: rest => (genImageName (off + 1) (extF s), s) :: expectedImagesFrom (off + 1) rest

/-- The stylesheet registry contents produced by empty-filename adds of
the given contents when off stylesheets were already present. -/
def expectedCSSFrom (off : Nat) : List String → List (String × String)
  | [] => []
  | c :: rest => (genCSSName (off + 1), c) :: expectedCSSFrom (off + 1) rest

/-- The values returned by a sequence of empty-filename add calls,
starting from ioff images and coff stylesheets already present. -/
def expectedOuts (ioff coff : Nat) : List ResCall → List (Except EpubError String)
  | [] => []
  | ResCall.img s :: rest =>
    Except.ok ("../" ++ imageFolderName ++ "/" ++ genImageName (ioff + 1) (extF s))
      :: expectedOuts (ioff + 1) coff rest
  | ResCall.css _ :: rest =>
    Except.ok ("../" ++ cssFolderName ++ "/" ++ genCSSName (coff + 1))
      :: expectedOuts ioff (coff + 1) rest

/- ### Frame lemmas for single operations -/

lemma applyOp_author_eq (o : Op) (e : Epub) (h : o.isSetAuthor = false) :
    (applyOp o e).author = e.author := by
  cases o with
  | setAuthor v => simp [Op.isSetAuthor] at h
  | setLang v => rfl
  | setTitle v => rfl
  | setUUID v => rfl
  | addImage s f => simp only [applyOp, Epub.AddImage]; split <;> rfl
  | addSection t c f => simp only [applyOp, Epub.AddSection]; split <;> rfl
  | addCSS c f => simp only [applyOp, Epub.AddCSS]; split <;> rfl

lemma applyOp_lang_eq (o : Op) (e : Epub) (h : o.isSetLang = false) :
    (applyOp o e).lang = e.lang := by
  cases o with
  | setLang v => simp [Op.isSetLang] at h
  | setAuthor v => rfl
  | setTitle v => rfl
  | setUUID v => rfl
  | addImage s f => simp only [applyOp, Epub.AddImage]; split <;> rfl
  | addSection t c f => simp only [applyOp, Epub.AddSection]; split <;> rfl
  | addCSS c f => simp only [applyOp, Epub.AddCSS]; split <;> rfl

lemma applyOp_title_eq (o : Op) (e : Epub) (h : o.isSetTitle = false) :
    (applyOp o e).title = e.title := by
  cases o with
  | setTitle v => simp [Op.isSetTitle] at h
  | setAuthor v => rfl
  | setLang v => rfl
  | setUUID v => rfl
  | addImage s f => simp only [applyOp, Epub.AddImage]; split <;> rfl
  | addSection t c f => simp only [applyOp, Epub.AddSection]; split <;> rfl
  | addCSS c f => simp only [applyOp, Epub.AddCSS]; split <;> rfl

lemma applyOp_uuid_eq (o : Op) (e : Epub) (h : o.isSetUUID = false) :
    (applyOp o e).uuid = e.uuid := by
  cases o with
  | setUUID v => simp [Op.isSetUUID] at h
  | setAuthor v => rfl
  | setLang v => rfl
  | setTitle v => rfl
  | addImage s f => simp only [applyOp, Epub.AddImage]; split <;> rfl
  | addSection t c f => simp only [applyOp, Epub.AddSection]; split <;> rfl
  | addCSS c f => simp only [applyOp, Epub.AddCSS]; split <;> rfl

lemma applyOps_author_eq : ∀ (ops : List Op) (e : Epub),
    (∀ o ∈ ops, o.isSetAuthor = false) → (applyOps ops e).author = e.author
  | [], _, _ => rfl
  | o :: os, e, h => by
    rw [applyOps, applyOps_author_eq os _ (fun x hx => h x (List.mem_cons_of_mem o hx)),
      applyOp_author_eq o e (h o (List.mem_cons_self o os))]

lemma applyOps_lang_eq : ∀ (ops : List Op) (e : Epub),
    (∀ o ∈ ops, o.isSetLang = false) → (applyOps ops e).lang = e.lang
  | [], _, _ => rfl
  | o :: os, e, h => by
    rw [applyOps, applyOps_lang_eq os _ (fun x hx => h x (List.mem_cons_of_mem o hx)),
      applyOp_lang_eq o e (h o (List.mem_cons_self o os))]

lemma applyOps_title_eq : ∀ (ops : List Op) (e : Epub),
    (∀ o ∈ ops, o.isSetTitle = false) → (applyOps ops e).title = e.title
  | [], _, _ => rfl
  | o :: os, e, h => by
    rw [applyOps, applyOps_title_eq os _ (fun x hx => h x (List.mem_cons_of_mem o hx)),
      applyOp_title_eq o e (h o (List.mem_cons_self o os))]

lemma applyOps_uuid_eq : ∀ (ops : List Op) (e : Epub),
    (∀ o ∈ ops, o.isSetUUID = false) → (applyOps ops e).uuid = e.uuid
  | [], _, _ => rfl
  | o :: os, e, h => by
    rw [applyOps, applyOps_uuid_eq os _ (fun x hx => h x (List.mem_cons_of_mem o hx)),
      applyOp_uuid_eq o e (h o (List.mem_cons_self o os))]

/- ### The metadata mirroring invariant -/

/-- The package metadata and the toc metadata agree with each other and
with the Book's own title and URN-prefixed unique identifier. -/
def metaMirrored (e : Epub) : Prop :=
  e.pkg.title = e.toc.title ∧ e.pkg.uuid = e.toc.uuid ∧
  e.pkg.title = e.title ∧ e.pkg.uuid = urnUUIDPre ++ e.uuid

lemma metaMirrored_applyOp (o : Op) (e : Epub) (h : metaMirrored e) :
    metaMirrored (applyOp o e) := by
  obtain ⟨h1, h2, h3, h4⟩ := h
  cases o with
  | setAuthor v => exact ⟨h1, h2, h3, h4⟩
  | setLang v => exact ⟨h1, h2, h3, h4⟩
  | setTitle v => exact ⟨rfl, h2, rfl, h4⟩
  | setUUID v => exact ⟨h1, rfl, h3, rfl⟩
  | addImage s f =>
    simp only [applyOp, Epub.AddImage]; split
    · exact ⟨h1, h2, h3, h4⟩
    · exact ⟨h1, h2, h3, h4⟩
  | addSection t c f =>
    simp only [applyOp, Epub.AddSection]; split
    · exact ⟨h1, h2, h3, h4⟩
    · exact ⟨h1, h2, h3, h4⟩
  | addCSS c f =>
    simp only [applyOp, Epub.AddCSS]; split
    · exact ⟨h1, h2, h3, h4⟩
    · exact ⟨h1, h2, h3, h4⟩

lemma metaMirrored_applyOps : ∀ (ops : List Op) (e : Epub),
    metaMirrored e → metaMirrored (applyOps ops e)
  | [], _, h => h
  | o :: os, e, h => metaMirrored_applyOps os _ (metaMirrored_applyOp o e h)

/- ### Claim theorems: constructor, setters, duplicates -/

/-- C7: NewEpub returns a Book whose language is the default "en", whose
unique identifier is the freshly generated UUID it was handed, whose
title is the given title, and whose image registry and section store are
empty. -/
theorem c7_new_epub_defaults (t u : String) :
    (NewEpub t u).lang = defaultEpubLang ∧ defaultEpubLang = "en" ∧
    (NewEpub t u).title = t ∧ (NewEpub t u).uuid = u ∧
    (NewEpub t u).images = [] ∧ (NewEpub t u).sections = [] :=
  ⟨rfl, rfl, rfl, rfl, rfl, rfl⟩

/-- C10: SetAuthor and SetLang update only the Book's own field and the
package metadata — every other field (the other scalar metadata fields,
the toc metadata, and all registries) is left exactly unchanged, so only
SetTitle and SetUUID touch the toc — and no setter modifies the images
map or the sections map. -/
theorem c10_setter_frame (e : Epub) (a l t u : String) :
    ((e.SetAuthor a).author = a ∧ (e.SetAuthor a).pkg = e.pkg.setAuthor a ∧
     (e.SetAuthor a).lang = e.lang ∧ (e.SetAuthor a).title = e.title ∧
     (e.SetAuthor a).uuid = e.uuid ∧ (e.SetAuthor a).toc = e.toc ∧
     (e.SetAuthor a).images = e.images ∧ (e.SetAuthor a).sections = e.sections ∧
     (e.SetAuthor a).css = e.css) ∧
    ((e.SetLang l).lang = l ∧ (e.SetLang l).pkg = e.pkg.setLang l ∧
     (e.SetLang l).author = e.author ∧ (e.SetLang l).title = e.title ∧
     (e.SetLang l).uuid = e.uuid ∧ (e.SetLang l).toc = e.toc ∧
     (e.SetLang l).images = e.images ∧ (e.SetLang l).sections = e.sections ∧
     (e.SetLang l).css = e.css) ∧
    (e.SetTitle t).images = e.images ∧ (e.SetTitle t).sections = e.sections ∧
    (e.SetUUID u).images = e.images ∧ (e.SetUUID u).sections = e.sections :=
  ⟨⟨rfl, rfl, rfl, rfl, rfl, rfl, rfl, rfl, rfl⟩,
   ⟨rfl, rfl, rfl, rfl, rfl, rfl, rfl, rfl, rfl⟩, rfl, rfl, rfl, rfl⟩

/-- C5: a value stored by SetAuthor / SetLang / SetTitle / SetUUID is
returned unchanged by the corresponding getter after any interleaved
operations that do not call the same setter again. -/
theorem c5_setter_getter_roundtrip (b : Epub) (v : String) (ops : List Op) :
    ((∀ o ∈ ops, o.isSetAuthor = false) → (applyOps ops (b.SetAuthor v)).author = v) ∧
    ((∀ o ∈ ops, o.isSetLang = false) → (applyOps ops (b.SetLang v)).lang = v) ∧
    ((∀ o ∈ ops, o.isSetTitle = false) → (applyOps ops (b.SetTitle v)).title = v) ∧
    ((∀ o ∈ ops, o.isSetUUID = false) → (applyOps ops (b.SetUUID v)).uuid = v) :=
  ⟨fun h => applyOps_author_eq ops _ h,
   fun h => applyOps_lang_eq ops _ h,
   fun h => applyOps_title_eq ops _ h,
   fun h => applyOps_uuid_eq ops _ h⟩

/-- C5 witness: at a concrete Book, value and interleaved operation
list. -/
theorem c5_setter_getter_roundtrip_w :
    (∀ o ∈ [Op.setLang "fr"], o.isSetAuthor = false) ∧
    (applyOps [Op.setLang "fr"] ((NewEpub "t" "u").SetAuthor "A")).author = "A" :=
  ⟨by decide, (c5_setter_getter_roundtrip (NewEpub "t" "u") "A" [Op.setLang "fr"]).1 (by decide)⟩

/-- C6: after any operation sequence on a freshly constructed Book (so in
particular after every SetTitle or SetUUID call, including the
constructor's), the title and URN-prefixed unique identifier held in the
package metadata and in the toc metadata are equal to each other and to
the value last set on the Book; no operation makes the copies diverge. -/
theorem c6_metadata_mirrored (t u : String) (ops : List Op) :
    (applyOps ops (NewEpub t u)).pkg.title = (applyOps ops (NewEpub t u)).toc.title ∧
    (applyOps ops (NewEpub t u)).pkg.uuid = (applyOps ops (NewEpub t u)).toc.uuid ∧
    (applyOps ops (NewEpub t u)).pkg.title = (applyOps ops (NewEpub t u)).title ∧
    (applyOps ops (NewEpub t u)).pkg.uuid = urnUUIDPre ++ (applyOps ops (NewEpub t u)).uuid ∧
    (applyOps ops (NewEpub t u)).toc.uuid = urnUUIDPre ++ (applyOps ops (NewEpub t u)).uuid := by
  have h := metaMirrored_applyOps ops (NewEpub t u) ⟨rfl, rfl, rfl, rfl⟩
  obtain ⟨h1, h2, h3, h4⟩ := h
  exact ⟨h1, h2, h3, h4, h2 ▸ h4⟩

/-- C2: an AddImage or AddSection call whose (possibly generated)
filename already exists in its own namespace returns the duplicate
sentinel and returns the Book state exactly unchanged. -/
theorem c2_duplicate_leaves_state_unchanged :
    (∀ (e : Epub) (src fn : String), e.resolvedImageName src fn ∈ e.images.map Prod.fst →
      e.AddImage src fn = (e, Except.error EpubError.filenameAlreadyUsed)) ∧
    (∀ (e : Epub) (t c fn : String), e.resolvedSectionName fn ∈ e.sections.map Prod.fst →
      e.AddSection t c fn = (e, Except.error EpubError.filenameAlreadyUsed)) :=
  ⟨fun e src fn h => by simp only [Epub.AddImage, if_pos h],
   fun e t c fn h => by simp only [Epub.AddSection, if_pos h]⟩

/-- C2 witness: re-adding the explicit filename "x.png" to a Book that
already holds it fails and leaves the Book unchanged. -/
theorem c2_duplicate_leaves_state_unchanged_w :
    (Epub.resolvedImageName (((NewEpub "t" "u").AddImage "a.png" "x.png").1) "b.png" "x.png" ∈
      (((NewEpub "t" "u").AddImage "a.png" "x.png").1).images.map Prod.fst) ∧
    Epub.AddImage (((NewEpub "t" "u").AddImage "a.png" "x.png").1) "b.png" "x.png" =
      ((((NewEpub "t" "u").AddImage "a.png" "x.png").1), Except.error EpubError.filenameAlreadyUsed) :=
  ⟨by decide, c2_duplicate_leaves_state_unchanged.1 _ "b.png" "x.png" (by decide)⟩

/-- C9: when an empty filename is passed but the name the generator
produces from the current count + 1 is already occupied, the call returns
the duplicate sentinel instead of skipping to the next free sequence
number. -/
theorem c9_generator_never_skips :
    (∀ (e : Epub) (src : String),
      genImageName (e.images.length + 1) (extF src) ∈ e.images.map Prod.fst →
      e.AddImage src "" = (e, Except.error EpubError.filenameAlreadyUsed)) ∧
    (∀ (e : Epub) (t c : String),
      genSectionName (e.sections.length + 1) ∈ e.sections.map Prod.fst →
      e.AddSection t c "" = (e, Except.error EpubError.filenameAlreadyUsed)) :=
  ⟨fun e src h => by
      simp only [Epub.AddImage, Epub.resolvedImageName, if_true, if_pos h],
   fun e t c h => by
      simp only [Epub.AddSection, Epub.resolvedSectionName, if_true, if_pos h]⟩

/-- C9 witness: the Book holds the explicit name "image0002.png" and one
image, so the next generated image name collides and the call fails. -/
theorem c9_generator_never_skips_w :
    (genImageName ((((NewEpub "t" "u").AddImage "a.png" "image0002.png").1).images.length + 1)
        (extF "b.png") ∈
      (((NewEpub "t" "u").AddImage "a.png" "image0002.png").1).images.map Prod.fst) ∧
    Epub.AddImage (((NewEpub "t" "u").AddImage "a.png" "image0002.png").1) "b.png" "" =
      ((((NewEpub "t" "u").AddImage "a.png" "image0002.png").1),
        Except.error EpubError.filenameAlreadyUsed) :=
  ⟨by decide, c9_generator_never_skips.1 _ "b.png" (by decide)⟩

/- ### Claim C1: section order -/

lemma applyOps_append : ∀ (ops more : List Op) (e : Epub),
    applyOps (ops ++ more) e = applyOps more (applyOps ops e)
  | [], _, _ => rfl
  | o :: os, more, e => applyOps_append os more (applyOp o e)

lemma spineOf_applyOp (o : Op) (e : Epub) :
    spineOf (applyOp o e) = spineOf e ++ sectionTrace [o] e := by
  cases o with
  | setAuthor v => simp [sectionTrace, applyOp, Epub.SetAuthor, spineOf]
  | setLang v => simp [sectionTrace, applyOp, Epub.SetLang, spineOf]
  | setTitle v => simp [sectionTrace, applyOp, Epub.SetTitle, spineOf]
  | setUUID v => simp [sectionTrace, applyOp, Epub.SetUUID, spineOf]
  | addImage s f =>
    simp only [applyOp, sectionTrace, Epub.AddImage]
    split <;> simp [spineOf]
  | addCSS c f =>
    simp only [applyOp, sectionTrace, Epub.AddCSS]
    split <;> simp [spineOf]
  | addSection t c f =>
    simp only [applyOp, sectionTrace, Epub.AddSection]
    split <;> simp [spineOf]

lemma spineOf_applyOps_trace : ∀ (ops : List Op) (e : Epub),
    spineOf (applyOps ops e) = spineOf e ++ sectionTrace ops e
  | [], e => by simp [applyOps, sectionTrace]
  | o :: os, e => by
    have h1 := spineOf_applyOps_trace os (applyOp o e)
    have h2 := spineOf_applyOp o e
    have h3 : sectionTrace [o] e ++ sectionTrace os (applyOp o e) = sectionTrace (o :: os) e := by
      cases o <;> simp [sectionTrace]
    rw [applyOps, h1, h2, List.append_assoc, h3]

lemma numberFrom_href : ∀ (l : List (String × Xhtml)) (k : Nat),
    (numberFrom k l).map (fun p => p.2.2) = l.map Prod.fst
  | [], _ => rfl
  | p :: rest, k => by simp [numberFrom, numberFrom_href rest (k + 1)]

/-- C1: for every operation sequence on a fresh Book, the spine order is
exactly the insertion order of the successful AddSection calls, both
tables of contents list the same hrefs in the same order as the spine,
and the order already present is stable: any further operations only
append to it. -/
theorem c1_section_order (t u : String) (ops : List Op) :
    spineOf (applyOps ops (NewEpub t u)) = sectionTrace ops (NewEpub t u) ∧
    (legacyTocOf (applyOps ops (NewEpub t u))).map (fun p => p.2.2) =
      spineOf (applyOps ops (NewEpub t u)) ∧
    (navDocOf (applyOps ops (NewEpub t u))).map Prod.snd =
      spineOf (applyOps ops (NewEpub t u)) ∧
    ∀ more : List Op, ∃ suffix : List String,
      spineOf (applyOps (ops ++ more) (NewEpub t u)) =
        spineOf (applyOps ops (NewEpub t u)) ++ suffix := by
  refine ⟨?_, ?_, ?_, ?_⟩
  · have h := spineOf_applyOps_trace ops (NewEpub t u)
    simpa [spineOf, NewEpub] using h
  · exact numberFrom_href _ 1
  · simp [navDocOf, spineOf, List.map_map]
  · intro more
    refine ⟨sectionTrace more (applyOps ops (NewEpub t u)), ?_⟩
    rw [applyOps_append, spineOf_applyOps_trace]

/- ### Decimal digit lemmas -/

lemma digitsRevAux_congr : ∀ (n fuel1 fuel2 : Nat), n ≤ fuel1 → n ≤ fuel2 →
    digitsRevAux fuel1 n = digitsRevAux fuel2 n := by
  intro n
  induction n using Nat.strong_induction_on with
  | _ n ih =>
    intro fuel1 fuel2 h1 h2
    match fuel1, fuel2 with
    | 0, 0 => rfl
    | 0, f2 + 1 =>
      have hn : n = 0 := Nat.le_zero.mp h1
      subst hn; simp [digitsRevAux]
    | f1 + 1, 0 =>
      have hn : n = 0 := Nat.le_zero.mp h2
      subst hn; simp [digitsRevAux]
    | f1 + 1, f2 + 1 =>
      simp only [digitsRevAux]
      by_cases hn : n = 0
      · simp [hn]
      · have hdiv : n / 10 < n := Nat.div_lt_self (Nat.pos_of_ne_zero hn) (by decide)
        simp only [hn, if_false]
        have := ih (n / 10) hdiv f1 f2 (by omega) (by omega)
        rw [this]

lemma digitsRev_succ (n : Nat) (hn : n ≠ 0) :
    digitsRev n = digitChar (n % 10) :: digitsRev (n / 10) := by
  have hdiv : n / 10 < n := Nat.div_lt_self (Nat.pos_of_ne_zero hn) (by decide)
  match n, hn with
  | m + 1, _ =>
    show digitsRevAux (m + 1) (m + 1) = _
    simp only [digitsRevAux, Nat.succ_ne_zero, if_false]
    rw [digitsRevAux_congr ((m + 1) / 10) m ((m + 1) / 10) (by omega) (by omega)]
    rfl

lemma charVal_digitChar (d : Nat) (h : d < 10) : charVal (digitChar d) = d := by
  interval_cases d <;> decide

lemma isDigit_digitChar (d : Nat) (h : d < 10) : (digitChar d).isDigit = true := by
  interval_cases d <;> decide

lemma valRev_digitsRev : ∀ n : Nat, valRev (digitsRev n) = n := by
  intro n
  induction n using Nat.strong_induction_on with
  | _ n ih =>
    by_cases hn : n = 0
    · subst hn; rfl
    · have hdiv : n / 10 < n := Nat.div_lt_self (Nat.pos_of_ne_zero hn) (by decide)
      rw [digitsRev_succ n hn]
      show charVal (digitChar (n % 10)) + 10 * valRev (digitsRev (n / 10)) = n
      rw [charVal_digitChar (n % 10) (Nat.mod_lt n (by decide)), ih (n / 10) hdiv]
      omega

lemma digitsRev_isDigit : ∀ (n : Nat) (c : Char), c ∈ digitsRev n → c.isDigit = true := by
  intro n
  induction n using Nat.strong_induction_on with
  | _ n ih =>
    intro c hc
    by_cases hn : n = 0
    · subst hn; simp [digitsRev, digitsRevAux] at hc
    · have hdiv : n / 10 < n := Nat.div_lt_self (Nat.pos_of_ne_zero hn) (by decide)
      rw [digitsRev_succ n hn] at hc
      rcases List.mem_cons.mp hc with h | h
      · subst h; exact isDigit_digitChar _ (Nat.mod_lt n (by decide))
      · exact ih (n / 10) hdiv c h

lemma digitsL_isDigit (n : Nat) (c : Char) (hc : c ∈ digitsL n) : c.isDigit = true := by
  unfold digitsL at hc
  by_cases hn : n = 0
  · simp [hn] at hc; subst hc; decide
  · simp only [hn, if_false, List.mem_reverse] at hc
    exact digitsRev_isDigit n c hc

lemma pad4L_isDigit (n : Nat) (c : Char) (hc : c ∈ pad4L n) : c.isDigit = true := by
  unfold pad4L at hc
  rcases List.mem_append.mp hc with h | h
  · rw [List.eq_of_mem_replicate h]; decide
  · exact digitsL_isDigit n c h

lemma valRev_append_zeros : ∀ (xs : List Char) (k : Nat),
    valRev (xs ++ List.replicate k '0') = valRev xs := by
  intro xs
  induction xs with
  | nil =>
    intro k
    induction k with
    | zero => rfl
    | succ m ihm => simp only [List.replicate, List.nil_append] at *; simp [valRev, ihm, charVal]
  | cons c t ih => intro k; simp [valRev, ih k]

lemma valM_pad4L (n : Nat) : valM (pad4L n) = n := by
  unfold valM pad4L
  rw [List.reverse_append, List.reverse_replicate, valRev_append_zeros]
  by_cases hn : n = 0
  · subst hn; decide
  · simp only [digitsL, hn, if_false, List.reverse_reverse]
    exact valRev_digitsRev n

lemma pad4L_inj {m n : Nat} (h : pad4L m = pad4L n) : m = n := by
  have hm := valM_pad4L m
  rw [h, valM_pad4L] at hm
  omega

lemma digit_block_eq : ∀ (d1 d2 e1 e2 : List Char),
    d1 ++ e1 = d2 ++ e2 →
    (∀ c ∈ d1, c.isDigit = true) → (∀ c ∈ d2, c.isDigit = true) →
    (∀ c, e1.head? = some c → c.isDigit = false) →
    (∀ c, e2.head? = some c → c.isDigit = false) →
    d1 = d2 := by
  intro d1
  induction d1 with
  | nil =>
    intro d2 e1 e2 heq _ h2 he1 _
    cases d2 with
    | nil => rfl
    | cons c t2 =>
      exfalso
      have hh : e1.head? = some c := by
        rw [List.nil_append] at heq
        rw [heq]; rfl
      have := he1 c hh
      rw [h2 c (List.mem_cons_self c t2)] at this
      exact absurd this (by decide)
  | cons c1 t1 ih =>
    intro d2 e1 e2 heq h1 h2 he1 he2
    cases d2 with
    | nil =>
      exfalso
      have hh : e2.head? = some c1 := by
        rw [List.nil_append] at heq
        rw [← heq]; rfl
      have := he2 c1 hh
      rw [h1 c1 (List.mem_cons_self c1 t1)] at this
      exact absurd this (by decide)
    | cons c2 t2 =>
      simp only [List.cons_append, List.cons.injEq] at heq
      obtain ⟨hc, ht⟩ := heq
      subst hc
      have := ih t2 e1 e2 ht (fun c hc => h1 c (List.mem_cons_of_mem _ hc))
        (fun c hc => h2 c (List.mem_cons_of_mem _ hc)) he1 he2
      rw [this]

/- ### Properties of extF -/

lemma extAux_head : ∀ (l acc r : List Char), extAux l acc = some r → r.head? = some '.' := by
  intro l
  induction l with
  | nil => intro acc r h; simp [extAux] at h
  | cons c rest ih =>
    intro acc r h
    rw [extAux] at h
    split at h
    · exact absurd h (by simp)
    · split at h
      · injection h with h2
        rw [← h2]; rfl
      · exact ih (c :: acc) r h

lemma extAux_no_slash : ∀ (l acc r : List Char), (∀ c ∈ acc, c ≠ '/') →
    extAux l acc = some r → ∀ c ∈ r, c ≠ '/' := by
  intro l
  induction l with
  | nil => intro acc r _ h; simp [extAux] at h
  | cons c rest ih =>
    intro acc r hacc h
    rw [extAux] at h
    split at h
    · exact absurd h (by simp)
    · split at h
      · injection h with h2
        intro x hx
        rw [← h2] at hx
        rcases List.mem_cons.mp hx with hx | hx
        · subst hx; decide
        · exact hacc x hx
      · rename_i hc _
        refine ih (c :: acc) r ?_ h
        intro x hx
        rcases List.mem_cons.mp hx with hx | hx
        · subst hx; exact hc
        · exact hacc x hx

lemma extF_head_not_digit (s : String) (c : Char) (h : (extF s).data.head? = some c) :
    c.isDigit = false := by
  unfold extF at h
  cases he : extAux s.data.reverse [] with
  | none => rw [he] at h; simp at h
  | some l =>
    rw [he] at h
    have hh := extAux_head s.data.reverse [] l he
    have hsc : some '.' = some c := by rw [← hh]; exact h
    injection hsc with h2
    rw [← h2]; decide

lemma extF_no_slash (s : String) (c : Char) (hc : c ∈ (extF s).data) : c ≠ '/' := by
  unfold extF at hc
  cases he : extAux s.data.reverse [] with
  | none => rw [he] at hc; simp at hc
  | some l =>
    rw [he] at hc
    exact extAux_no_slash s.data.reverse [] l (by intro x hx; simp at hx) he c hc

/- ### Properties of splitSlash and cleanRelL -/

lemma splitSlash_no_sep : ∀ l : List Char, (∀ c ∈ l, c ≠ '/') → splitSlash l = [l] := by
  intro l
  induction l with
  | nil => intro _; rfl
  | cons c t ih =>
    intro h
    have hc : c ≠ '/' := h c (List.mem_cons_self c t)
    have ht := ih (fun x hx => h x (List.mem_cons_of_mem c hx))
    have hstep : splitSlash (c :: t) =
        (if c = '/' then [] :: splitSlash t
         else match splitSlash t with
           | [] => [[c]]
           | h2 :: t2 => (c :: h2) :: t2) := rfl
    rw [hstep, if_neg hc, ht]

lemma splitSlash_append_sep : ∀ (xs ys : List Char), (∀ c ∈ xs, c ≠ '/') →
    splitSlash (xs ++ '/' :: ys) = xs :: splitSlash ys := by
  intro xs
  induction xs with
  | nil =>
    intro ys _
    have hstep : splitSlash ([] ++ '/' :: ys) = [] :: splitSlash ys := by
      rw [List.nil_append]; rfl
    rw [hstep]
  | cons c t ih =>
    intro ys h
    have hc : c ≠ '/' := h c (List.mem_cons_self c t)
    have ht := ih ys (fun x hx => h x (List.mem_cons_of_mem c hx))
    have hstep : splitSlash ((c :: t) ++ '/' :: ys) =
        (if c = '/' then [] :: splitSlash (t ++ '/' :: ys)
         else match splitSlash (t ++ '/' :: ys) with
           | [] => [[c]]
           | h2 :: t2 => (c :: h2) :: t2) := rfl
    rw [hstep, if_neg hc, ht]

/-- A plain filename: non-empty, not "." or "..", and without the path
separator. Every such filename survives filepath.Clean unchanged inside
"../<folder>/". -/
def plainName (l : List Char) : Prop :=
  l ≠ [] ∧ l ≠ ['.'] ∧ l ≠ ['.', '.'] ∧ ∀ c ∈ l, c ≠ '/'

lemma cleanRelL_good : ∀ (f lf : List Char), plainName f → plainName lf →
    cleanRelL (['.', '.'] ++ '/' :: (f ++ '/' :: lf)) = ['.', '.'] ++ '/' :: (f ++ '/' :: lf) := by
  intro f lf hf hlf
  obtain ⟨hf1, hf2, hf3, hf4⟩ := hf
  obtain ⟨hl1, hl2, hl3, hl4⟩ := hlf
  have hsplit : splitSlash (['.', '.'] ++ '/' :: (f ++ '/' :: lf)) = [['.', '.'], f, lf] := by
    rw [splitSlash_append_sep ['.', '.'] _ (by decide), splitSlash_append_sep f _ hf4,
      splitSlash_no_sep lf hl4]
  have hfilter : List.filter (fun e => decide (e ≠ [] ∧ e ≠ ['.'])) [['.', '.'], f, lf]
      = [['.', '.'], f, lf] := by
    have pd : (decide ((['.', '.'] : List Char) ≠ [] ∧ ['.', '.'] ≠ ['.'])) = true := by decide
    have pf : (decide (f ≠ [] ∧ f ≠ ['.'])) = true := decide_eq_true ⟨hf1, hf2⟩
    have pl : (decide (lf ≠ [] ∧ lf ≠ ['.'])) = true := decide_eq_true ⟨hl1, hl2⟩
    simp only [List.filter_cons, pd, pf, pl, if_true, List.filter_nil]
  have s2 : cleanStep [['.', '.']] f = [f, ['.', '.']] := by
    unfold cleanStep; rw [if_neg hf3]
  have s3 : cleanStep [f, ['.', '.']] lf = [lf, f, ['.', '.']] := by
    unfold cleanStep; rw [if_neg hl3]
  simp only [cleanRelL]
  rw [hsplit, hfilter]
  show (match (cleanStep (cleanStep (cleanStep [] ['.', '.']) f) lf).reverse with
    | [] => ['.'] | r => joinSlash r) = _
  rw [show cleanStep [] ['.', '.'] = [['.', '.']] from by decide, s2, s3]
  show joinSlash [['.', '.'], f, lf] = _
  rfl

lemma goJoin_good (fld fn : String) (hfld : plainName fld.data) (hfn : plainName fn.data) :
    goJoin ["..", fld, fn] = "../" ++ fld ++ "/" ++ fn := by
  have hdrop : List.dropWhile (fun s => decide (s = "")) ["..", fld, fn] = ["..", fld, fn] := by
    rw [List.dropWhile_cons_of_neg (by decide)]
  have hgj : goJoin ["..", fld, fn] = cleanRel (joinRaw ["..", fld, fn]) := by
    simp only [goJoin]
    rw [hdrop]
  rw [hgj]
  apply String.ext
  show cleanRelL ((joinRaw ["..", fld, fn]).data) = _
  have hdata : (joinRaw ["..", fld, fn]).data =
      ['.', '.'] ++ '/' :: (fld.data ++ '/' :: fn.data) := by
    show ((".." ++ "/") ++ (fld ++ "/" ++ fn)).data = _
    simp only [String.data_append]
    simp [List.append_assoc]
  have hdata2 : ("../" ++ fld ++ "/" ++ fn).data =
      ['.', '.'] ++ '/' :: (fld.data ++ '/' :: fn.data) := by
    simp only [String.data_append]
    simp [List.append_assoc]
  rw [hdata, hdata2, cleanRelL_good fld.data fn.data hfld hfn]

/- ### Generated filenames are plain, injective in the sequence number -/

lemma ne_slash_of_digit (c : Char) (h : c.isDigit = true) : c ≠ '/' := by
  intro he; subst he; exact absurd h (by decide)

lemma plainName_of_head (l : List Char) (c : Char) (hh : l.head? = some c)
    (hc1 : c ≠ '/') (hc2 : c ≠ '.') (hr : ∀ x ∈ l, x ≠ '/') : plainName l := by
  cases l with
  | nil => simp at hh
  | cons a t =>
    have ha : a = c := by injection hh
    subst ha
    refine ⟨by simp, ?_, ?_, hr⟩
    · intro he; injection he with h1 _; exact hc2 h1
    · intro he; injection he with h1 _; exact hc2 h1

lemma genImageName_data (n : Nat) (e : String) :
    (genImageName n e).data = ("image".data ++ pad4L n) ++ e.data := by
  simp [genImageName, String.data_append]

lemma genCSSName_data (n : Nat) :
    (genCSSName n).data = ("css".data ++ pad4L n) ++ (".css" : String).data := by
  simp [genCSSName, String.data_append]

lemma genImageName_plain (n : Nat) (src : String) : plainName (genImageName n (extF src)).data := by
  rw [genImageName_data]
  refine plainName_of_head _ 'i' rfl (by decide) (by decide) ?_
  intro x hx
  rcases List.mem_append.mp hx with hx | hx
  · rcases List.mem_append.mp hx with hx | hx
    · have hx2 : x ∈ ['i', 'm', 'a', 'g', 'e'] := hx
      fin_cases hx2 <;> decide
    · exact ne_slash_of_digit x (pad4L_isDigit n x hx)
  · exact extF_no_slash src x hx

lemma genCSSName_plain (n : Nat) : plainName (genCSSName n).data := by
  rw [genCSSName_data]
  refine plainName_of_head _ 'c' rfl (by decide) (by decide) ?_
  intro x hx
  rcases List.mem_append.mp hx with hx | hx
  · rcases List.mem_append.mp hx with hx | hx
    · have hx2 : x ∈ ['c', 's', 's'] := hx
      fin_cases hx2 <;> decide
    · exact ne_slash_of_digit x (pad4L_isDigit n x hx)
  · have hx2 : x ∈ ['.', 'c', 's', 's'] := hx
    fin_cases hx2 <;> decide

lemma genImageName_inj (m n : Nat) (s1 s2 : String)
    (h : genImageName m (extF s1) = genImageName n (extF s2)) : m = n := by
  have hd := congrArg String.data h
  rw [genImageName_data, genImageName_data, List.append_assoc, List.append_assoc] at hd
  have hd2 := List.append_cancel_left hd
  exact pad4L_inj (digit_block_eq (pad4L m) (pad4L n) _ _ hd2
    (fun c hc => pad4L_isDigit m c hc) (fun c hc => pad4L_isDigit n c hc)
    (fun c hc => extF_head_not_digit s1 c hc) (fun c hc => extF_head_not_digit s2 c hc))

lemma genCSSName_inj (m n : Nat) (h : genCSSName m = genCSSName n) : m = n := by
  have hd := congrArg String.data h
  rw [genCSSName_data, genCSSName_data, List.append_assoc, List.append_assoc] at hd
  have hd2 := List.append_cancel_left hd
  have hcssHead : ∀ c : Char, ((".css" : String).data.head? = some c) → c.isDigit = false := by
    intro c hc
    have : some '.' = some c := hc
    injection this with h2
    rw [← h2]; decide
  exact pad4L_inj (digit_block_eq (pad4L m) (pad4L n) _ _ hd2
    (fun c hc => pad4L_isDigit m c hc) (fun c hc => pad4L_isDigit n c hc)
    hcssHead hcssHead)

/- ### The registries produced by empty-filename add sequences -/

lemma expectedImagesFrom_length : ∀ (l : List String) (off : Nat),
    (expectedImagesFrom off l).length = l.length
  | [], _ => rfl
  | _ :: rest, off => by
    simp [expectedImagesFrom, expectedImagesFrom_length rest (off + 1)]

lemma expectedCSSFrom_length : ∀ (l : List String) (off : Nat),
    (expectedCSSFrom off l).length = l.length
  | [], _ => rfl
  | _ :: rest, off => by
    simp [expectedCSSFrom, expectedCSSFrom_length rest (off + 1)]

lemma expectedImagesFrom_append : ∀ (a : List String) (off : Nat) (b : List String),
    expectedImagesFrom off (a ++ b) = expectedImagesFrom off a ++ expectedImagesFrom (off + a.length) b := by
  intro a
  induction a with
  | nil => intro off b; simp [expectedImagesFrom]
  | cons s rest ih =>
    intro off b
    show (genImageName (off + 1) (extF s), s) :: expectedImagesFrom (off + 1) (rest ++ b) = _
    rw [ih (off + 1) b]
    have harith : off + 1 + rest.length = off + (rest.length + 1) := by omega
    rw [harith]
    rfl

lemma expectedCSSFrom_append : ∀ (a : List String) (off : Nat) (b : List String),
    expectedCSSFrom off (a ++ b) = expectedCSSFrom off a ++ expectedCSSFrom (off + a.length) b := by
  intro a
  induction a with
  | nil => intro off b; simp [expectedCSSFrom]
  | cons s rest ih =>
    intro off b
    show (genCSSName (off + 1), s) :: expectedCSSFrom (off + 1) (rest ++ b) = _
    rw [ih (off + 1) b]
    have harith : off + 1 + rest.length = off + (rest.length + 1) := by omega
    rw [harith]
    rfl

lemma genImageName_notMem : ∀ (pre : List String) (off m : Nat) (s : String),
    (m ≤ off ∨ off + pre.length < m) →
    genImageName m (extF s) ∉ (expectedImagesFrom off pre).map Prod.fst := by
  intro pre
  induction pre with
  | nil => intro off m s _ h; simp [expectedImagesFrom] at h
  | cons p rest ih =>
    intro off m s hcond h
    simp only [expectedImagesFrom, List.map_cons, List.mem_cons] at h
    simp only [List.length_cons] at hcond
    rcases h with h | h
    · have := genImageName_inj m (off + 1) s p h
      omega
    · exact ih (off + 1) m s (by omega) h

lemma genCSSName_notMem : ∀ (pre : List String) (off m : Nat),
    (m ≤ off ∨ off + pre.length < m) →
    genCSSName m ∉ (expectedCSSFrom off pre).map Prod.fst := by
  intro pre
  induction pre with
  | nil => intro off m _ h; simp [expectedCSSFrom] at h
  | cons p rest ih =>
    intro off m hcond h
    simp only [expectedCSSFrom, List.map_cons, List.mem_cons] at h
    simp only [List.length_cons] at hcond
    rcases h with h | h
    · have := genCSSName_inj m (off + 1) h
      omega
    · exact ih (off + 1) m (by omega) h

lemma expectedImagesFrom_nodup : ∀ (l : List String) (off : Nat),
    ((expectedImagesFrom off l).map Prod.fst).Nodup := by
  intro l
  induction l with
  | nil => intro off; simp [expectedImagesFrom]
  | cons s rest ih =>
    intro off
    simp only [expectedImagesFrom, List.map_cons, List.nodup_cons]
    exact ⟨genImageName_notMem rest (off + 1) (off + 1) s (Or.inl (Nat.le_refl _)), ih (off + 1)⟩

lemma expectedCSSFrom_nodup : ∀ (l : List String) (off : Nat),
    ((expectedCSSFrom off l).map Prod.fst).Nodup := by
  intro l
  induction l with
  | nil => intro off; simp [expectedCSSFrom]
  | cons s rest ih =>
    intro off
    simp only [expectedCSSFrom, List.map_cons, List.nodup_cons]
    exact ⟨genCSSName_notMem rest (off + 1) (off + 1) (Or.inl (Nat.le_refl _)), ih (off + 1)⟩

lemma imageFolderName_plain : plainName imageFolderName.data :=
  ⟨by decide, by decide, by decide, by decide⟩

lemma cssFolderName_plain : plainName cssFolderName.data :=
  ⟨by decide, by decide, by decide, by decide⟩

lemma runRes_spec : ∀ (calls : List ResCall) (e : Epub) (iPre cPre : List String),
    e.images = expectedImagesFrom 0 iPre →
    e.css = expectedCSSFrom 0 cPre →
    runRes e calls =
      ({ e with images := expectedImagesFrom 0 (iPre ++ imgSrcs calls),
                css := expectedCSSFrom 0 (cPre ++ cssContents calls) },
       expectedOuts iPre.length cPre.length calls) := by
  intro calls
  induction calls with
  | nil =>
    intro e iPre cPre hi hc
    show (e, []) =
      ({ e with images := expectedImagesFrom 0 (iPre ++ []),
                css := expectedCSSFrom 0 (cPre ++ []) }, [])
    rw [List.append_nil, List.append_nil, ← hi, ← hc]
  | cons call rest ih =>
    intro e iPre cPre hi hc
    cases call with
    | img src =>
      have hlen : e.images.length = iPre.length := by
        rw [hi, expectedImagesFrom_length]
      have hres : e.resolvedImageName src "" = genImageName (iPre.length + 1) (extF src) := by
        simp [Epub.resolvedImageName, hlen]
      have hnot : genImageName (iPre.length + 1) (extF src) ∉ List.map Prod.fst e.images := by
        rw [hi]
        exact genImageName_notMem iPre 0 (iPre.length + 1) src (Or.inr (by omega))
      have hAI1 : (e.AddImage src "").1 =
          { e with images := e.images ++ [(genImageName (iPre.length + 1) (extF src), src)] } := by
        simp only [Epub.AddImage, hres]
        rw [if_neg hnot]
      have hAI2 : (e.AddImage src "").2 =
          Except.ok (goJoin ["..", imageFolderName, genImageName (iPre.length + 1) (extF src)]) := by
        simp only [Epub.AddImage, hres]
        rw [if_neg hnot]
      have he' : ({ e with images := e.images ++ [(genImageName (iPre.length + 1) (extF src), src)] } : Epub).images
          = expectedImagesFrom 0 (iPre ++ [src]) := by
        show e.images ++ [(genImageName (iPre.length + 1) (extF src), src)] = _
        rw [hi, expectedImagesFrom_append iPre 0 [src]]
        have hz : (0 : Nat) + iPre.length = iPre.length := by omega
        rw [hz]
        rfl
      have hIH := ih { e with images := e.images ++ [(genImageName (iPre.length + 1) (extF src), src)] }
        (iPre ++ [src]) cPre he' hc
      have hl1 : (iPre ++ [src]) ++ imgSrcs rest = iPre ++ src :: imgSrcs rest := by simp
      have hl2 : (iPre ++ [src]).length = iPre.length + 1 := by simp
      rw [hl1, hl2] at hIH
      show ((runRes (e.AddImage src "").1 rest).1,
        (e.AddImage src "").2 :: (runRes (e.AddImage src "").1 rest).2) = _
      rw [hAI1, hAI2, hIH,
        goJoin_good imageFolderName (genImageName (iPre.length + 1) (extF src))
          imageFolderName_plain (genImageName_plain (iPre.length + 1) src)]
      rfl
    | css content =>
      have hlen : e.css.length = cPre.length := by
        rw [hc, expectedCSSFrom_length]
      have hres : e.resolvedCSSName "" = genCSSName (cPre.length + 1) := by
        simp [Epub.resolvedCSSName, hlen]
      have hnot : genCSSName (cPre.length + 1) ∉ List.map Prod.fst e.css := by
        rw [hc]
        exact genCSSName_notMem cPre 0 (cPre.length + 1) (Or.inr (by omega))
      have hAC1 : (e.AddCSS content "").1 =
          { e with css := e.css ++ [(genCSSName (cPre.length + 1), content)] } := by
        simp only [Epub.AddCSS, hres]
        rw [if_neg hnot]
      have hAC2 : (e.AddCSS content "").2 =
          Except.ok (goJoin ["..", cssFolderName, genCSSName (cPre.length + 1)]) := by
        simp only [Epub.AddCSS, hres]
        rw [if_neg hnot]
      have he' : ({ e with css := e.css ++ [(genCSSName (cPre.length + 1), content)] } : Epub).css
          = expectedCSSFrom 0 (cPre ++ [content]) := by
        show e.css ++ [(genCSSName (cPre.length + 1), content)] = _
        rw [hc, expectedCSSFrom_append cPre 0 [content]]
        have hz : (0 : Nat) + cPre.length = cPre.length := by omega
        rw [hz]
        rfl
      have hIH := ih { e with css := e.css ++ [(genCSSName (cPre.length + 1), content)] }
        iPre (cPre ++ [content]) hi he'
      have hl1 : (cPre ++ [content]) ++ cssContents rest = cPre ++ content :: cssContents rest := by simp
      have hl2 : (cPre ++ [content]).length = cPre.length + 1 := by simp
      rw [hl1, hl2] at hIH
      show ((runRes (e.AddCSS content "").1 rest).1,
        (e.AddCSS content "").2 :: (runRes (e.AddCSS content "").1 rest).2) = _
      rw [hAC1, hAC2, hIH,
        goJoin_good cssFolderName (genCSSName (cPre.length + 1))
          cssFolderName_plain (genCSSName_plain (cPre.length + 1))]
      rfl

/- ### Width of the padded sequence number -/

lemma digitsRev_length_le : ∀ (k n : Nat), n < 10 ^ k → (digitsRev n).length ≤ k := by
  intro k
  induction k with
  | zero =>
    intro n h
    have : n = 0 := by simpa using Nat.lt_one_iff.mp h
    subst this; exact Nat.le_refl _
  | succ k ihk =>
    intro n h
    by_cases hn : n = 0
    · subst hn; exact Nat.zero_le _
    · rw [digitsRev_succ n hn]
      have hdiv : n / 10 < 10 ^ k := by
        rw [Nat.div_lt_iff_lt_mul (by decide)]
        calc n < 10 ^ (k + 1) := h
          _ = 10 ^ k * 10 := by rw [Nat.pow_succ]
      have := ihk (n / 10) hdiv
      simp only [List.length_cons]
      omega

lemma pad4L_length (n : Nat) (h : n ≤ 9999) : (pad4L n).length = 4 := by
  have hlen : (digitsL n).length ≤ 4 := by
    unfold digitsL
    by_cases hn : n = 0
    · simp [hn]
    · simp only [hn, if_false, List.length_reverse]
      exact digitsRev_length_le 4 n (by omega)
  unfold pad4L
  rw [List.length_append, List.length_replicate]
  omega

/- ### Claim C3: generated filenames -/

/-- C3: for every sequence of AddImage and AddCSS calls with empty
filenames on a fresh Book, each call succeeds; the generated names follow
the fixed pattern with a per-kind sequence number equal to that kind's
current count + 1 (so numbers run 1, 2, 3, ... per kind, strictly
increasing); the names are pairwise distinct within each kind; the padded
sequence number is exactly 4 digits up to 9999; and in particular after
an explicit "go-gopher.png" a generated image name is
"../img/image0002.png". -/
theorem c3_generated_names (t u : String) (calls : List ResCall) :
    runRes (NewEpub t u) calls =
      ({ NewEpub t u with images := expectedImagesFrom 0 (imgSrcs calls),
                          css := expectedCSSFrom 0 (cssContents calls) },
       expectedOuts 0 0 calls) ∧
    ((expectedImagesFrom 0 (imgSrcs calls)).map Prod.fst).Nodup ∧
    ((expectedCSSFrom 0 (cssContents calls)).map Prod.fst).Nodup ∧
    (∀ n : Nat, n ≤ 9999 → (pad4L n).length = 4) ∧
    (((NewEpub "My title" "00000000-0000-4000-8000-000000000000").AddImage
        "testdata/gophercolor16x16.png" "go-gopher.png").1.AddImage
        "https://golang.org/doc/gopher/gophercolor16x16.png" "").2 =
      Except.ok "../img/image0002.png" :=
  ⟨runRes_spec calls (NewEpub t u) [] [] rfl rfl,
   expectedImagesFrom_nodup (imgSrcs calls) 0,
   expectedCSSFrom_nodup (cssContents calls) 0,
   fun n h => pad4L_length n h,
   by decide⟩

/-- C3 witness: the padded sequence number of 2 is 4 digits wide. -/
theorem c3_generated_names_w : 2 ≤ 9999 ∧ (pad4L 2).length = 4 :=
  ⟨by decide, (c3_generated_names "a" "b" []).2.2.2.1 2 (by decide)⟩

/- ### Claim C4: returned references -/

lemma resolvedImageName_plain (e : Epub) (src fn : String)
    (h : fn = "" ∨ plainName fn.data) : plainName (e.resolvedImageName src fn).data := by
  rcases h with h | h
  · subst h
    simp only [Epub.resolvedImageName, if_pos rfl]
    exact genImageName_plain _ src
  · have hne : fn ≠ "" := by
      intro he; subst he; exact h.1 rfl
    simp only [Epub.resolvedImageName, if_neg hne]
    exact h

/-- C4 (amended): a successful AddSection always returns the bare
resolved filename, and a successful AddImage returns
"../img/<filename>" whenever the (possibly generated) filename is a
plain name — non-empty, not "." or "..", without "/". (For filenames
with path-navigation components filepath.Join cleans the result, see the
counterexample.) The two spec examples are included. -/
theorem c4_return_values :
    (∀ (e : Epub) (src fn : String) (e' : Epub) (p : String),
      (fn = "" ∨ plainName fn.data) →
      e.AddImage src fn = (e', Except.ok p) →
      p = "../" ++ imageFolderName ++ "/" ++ e.resolvedImageName src fn) ∧
    (∀ (e : Epub) (t c fn : String) (e' : Epub) (p : String),
      e.AddSection t c fn = (e', Except.ok p) →
      p = e.resolvedSectionName fn) ∧
    ((NewEpub "My title" "u").AddSection "Section 1" "c1" "firstsection.xhtml").2 =
      Except.ok "firstsection.xhtml" ∧
    (((NewEpub "My title" "u").AddSection "Section 1" "c1" "firstsection.xhtml").1.AddSection
        "Section 2" "c2" "").2 = Except.ok "section0002.xhtml" := by
  refine ⟨?_, ?_, by decide, by decide⟩
  · intro e src fn e' p hplain heq
    simp only [Epub.AddImage] at heq
    split at heq
    · injection heq with h1 h2
      exact absurd h2 (by simp)
    · injection heq with h1 h2
      injection h2 with h3
      rw [← h3]
      exact goJoin_good imageFolderName (e.resolvedImageName src fn)
        imageFolderName_plain (resolvedImageName_plain e src fn hplain)
  · intro e t c fn e' p heq
    simp only [Epub.AddSection] at heq
    split at heq
    · injection heq with h1 h2
      exact absurd h2 (by simp)
    · injection heq with h1 h2
      injection h2 with h3
      exact h3.symm

/-- C4 counterexample: AddImage accepts the filename ".." and returns
".." (filepath.Join cleans "../img/.." to ".."), not "../img/..", so the
claim's unconditional "../<kindFolder>/<filename>" shape fails. -/
theorem c4_counterexample :
    ((NewEpub "t" "u").AddImage "a.png" "..").2 = Except.ok ".." ∧
    (".." : String) ≠ "../" ++ imageFolderName ++ "/" ++ ".." :=
  ⟨by decide, by decide⟩

/-- C4 witness: at the concrete explicit filename "x.png". -/
theorem c4_return_values_w :
    ((("x.png" : String) = "" ∨ plainName ("x.png" : String).data) ∧
     (NewEpub "t" "u").AddImage "a.png" "x.png" =
       (((NewEpub "t" "u").AddImage "a.png" "x.png").1, Except.ok "../img/x.png")) ∧
    "../img/x.png" = "../" ++ imageFolderName ++ "/" ++
      (NewEpub "t" "u").resolvedImageName "a.png" "x.png" :=
  ⟨⟨Or.inr ⟨by decide, by decide, by decide, by decide⟩, by decide⟩,
   c4_return_values.1 (NewEpub "t" "u") "a.png" "x.png"
     ((NewEpub "t" "u").AddImage "a.png" "x.png").1 "../img/x.png"
     (Or.inr ⟨by decide, by decide, by decide, by decide⟩) (by decide)⟩

/- ### Claim C8: the archive's first entry -/

/-- C8: every successful write produces an archive whose first entry is
named "mimetype", is stored uncompressed, and contains exactly the fixed
container media-type string. -/
theorem c8_first_entry (e : Epub) (fetch : String → Option String) (out : List ZipEntry)
    (h : e.write fetch = some out) :
    out.head? = some ⟨"mimetype", false, containerMediaType⟩ := by
  unfold Epub.write at h
  cases hf : fetchAll fetch e.images with
  | none => rw [hf] at h; exact absurd h (by simp)
  | some bs =>
    rw [hf] at h
    injection h with h2
    rw [← h2]
    rfl

/-- C8 witness: a concrete Book written with a trivial fetch
collaborator. -/
theorem c8_first_entry_w :
    ((NewEpub "t" "u").write (fun _ => some "") =
      some (((NewEpub "t" "u").write (fun _ => some "")).getD [])) ∧
    (((NewEpub "t" "u").write (fun _ => some "")).getD []).head? =
      some ⟨"mimetype", false, containerMediaType⟩ :=
  ⟨by rfl, c8_first_entry (NewEpub "t" "u") (fun _ => some "") _ (by rfl)⟩

